import Mathlib

/-!
Shallow embedding of the layout-slice tree rewriting core of
django-crispy-forms (`crispy_forms/layout_slice.py`) together with the
scoped-cleanup helper of `crispy_forms/base.py`, and proofs checking the
natural-language specification against the embedded code.

Modelling conventions:
* A layout tree value is either a leaf token (a plain string field
  reference) or a structural node with a kind, a string-to-string
  attribute mapping (`attrs`) and an ordered child list (`fields`).
* Python dictionaries are modelled as association lists with
  first-match lookup; Python lists get explicit index semantics
  (negative indices wrap, out-of-range raises `IndexError`).
* A constructor call `LayoutClass(*arguments, **kwargs)` is modelled as
  the node `LNode.node LayoutClass kwargs arguments`: positional
  arguments become the child list, keyword arguments the attribute
  mapping, and a plain string positional argument becomes a leaf token.
* `isinstance(x, LayoutClass)` is modelled as kind equality on
  structural nodes (and false on strings); the concrete class catalog
  lives outside the excerpted module and its kinds are modelled as an
  enumeration of unrelated classes over the shared base.
* In-place mutation is modelled by explicit state passing: each
  operation returns the (possibly partially) mutated tree together with
  the exception it raised, if any, so that partial mutation before a
  failure stays observable.
-/

namespace CrispyForms

/-- Node kinds of the layout catalog, as far as `layout_slice.py` needs
them: the three kinds listed in `LayoutSlice.args_first`, plus
representative other kinds (`layout` for the root, `div`, `field`). -/
inductive Kind : Type where
  | layout
  | div
  | field
  | fieldset
  | multiField
  | container
deriving DecidableEq, Repr

/-- Python-level exceptions that the embedded code can surface.
`dynamicError` is crispy-forms' dedicated `DynamicError`;
`unboundLocalError` models referencing a local variable before
assignment. -/
inductive PyErr : Type where
  | indexError
  | attributeError
  | dynamicError
  | unboundLocalError
deriving DecidableEq, Repr

/-- String-to-string attribute mapping (a Python dict, modelled as an
association list with first-match lookup). -/
abbrev Attrs := List (String × String)

/-- A layout tree: a leaf token (plain string field reference) or a
structural node with a kind, attributes and an ordered child list. -/
inductive LNode : Type where
  | leaf : String → LNode
  | node : Kind → Attrs → List LNode → LNode

/-- `d[k]` lookup on a dict: first matching binding. -/
def dictGet : Attrs → String → Option String
  | [], _ => none
  | (k', v') :: rest, k => if k' = k then some v' else dictGet rest k

/-- `k in d` membership on a dict. -/
def dictContains (d : Attrs) (k : String) : Bool :=
  (dictGet d k).isSome

/-- `d[k] = v` assignment on a dict: replace the existing binding in
place, or append a new one. -/
def dictSet : Attrs → String → String → Attrs
  | [], k, v => [(k, v)]
  | (k', v') :: rest, k, v =>
      if k' = k then (k, v) :: rest else (k', v') :: dictSet rest k v

/-- `d.pop(k)` / `del d[k]`: drop the binding for `k` (dict keys are
unique, so dropping every matching pair is equivalent). -/
def dictRemove (d : Attrs) (k : String) : Attrs :=
  d.filter (fun kv => kv.1 ≠ k)

/-- `d.update(kvs)`: fold assignment over the new pairs. -/
def dictUpdate (d : Attrs) (kvs : Attrs) : Attrs :=
  kvs.foldl (fun acc kv => dictSet acc kv.1 kv.2) d

/-- The `fields` attribute of a layout object.  Leaf tokens (plain
strings) have no `fields` in Python; accessing it raises
`AttributeError`.  Call sites below either match on the node shape
first or are only ever reached with a structural node (the root of a
`LayoutSlice` is always a `Layout` instance), so returning `[]` for a
leaf here is never observed. -/
def LNode.fields : LNode → List LNode
  | .leaf _ => []
  | .node _ _ fs => fs

/-- The attribute mapping of a layout object (`attrs`); empty for leaf
tokens, which carry none. -/
def attrsOf : LNode → Attrs
  | .leaf _ => []
  | .node _ a _ => a

/-- Whether the value is a plain string leaf (`isinstance(x, str)`). -/
def LNode.isLeaf : LNode → Bool
  | .leaf _ => true
  | .node _ _ _ => false

/-- `isinstance(x, LayoutClass)`: false for strings, kind equality for
structural nodes (the modelled kinds are unrelated classes apart from
the shared `LayoutObject` base). -/
def isInstanceOf (x : LNode) (K : Kind) : Bool :=
  match x with
  | .leaf _ => false
  | .node k _ _ => k = K

/-- Bounds check on an already-normalized index. -/
def pyIdxAux (n : Nat) (j : Int) : Option Nat :=
  if 0 ≤ j ∧ j < (n : Int) then some j.toNat else none

/-- Python list-index normalization: negative indices count from the
end; a normalized index outside `[0, n)` is an `IndexError`. -/
def pyIdx (n : Nat) (i : Int) : Option Nat :=
  pyIdxAux n (if i < 0 then i + n else i)

/-- Index normalization as a fallible computation. -/
def pyIdxE (n : Nat) (i : Int) : Except PyErr Nat :=
  match pyIdx n i with
  | some j => .ok j
  | none => .error .indexError

/-- `xs[i]` on a Python list. -/
def pyGetE (xs : List LNode) (i : Int) : Except PyErr LNode :=
  (pyIdxE xs.length i).map (fun j => xs.getD j (.leaf ""))

/-- `xs[i] = v` on a Python list. -/
def pySet (xs : List LNode) (i : Int) (v : LNode) : Except PyErr (List LNode) :=
  (pyIdxE xs.length i).map (fun j => xs.set j v)

/-- `del xs[i]` on a Python list. -/
def pyDel (xs : List LNode) (i : Int) : Except PyErr (List LNode) :=
  (pyIdxE xs.length i).map (fun j => xs.take j ++ xs.drop (j + 1))

/-- A Python `slice(start, stop, step)` object. -/
structure PySlice : Type where
  start : Option Int
  stop : Option Int
  step : Option Int
deriving DecidableEq, Repr

/-- Clamp one slice bound the way `slice.indices` does. -/
def clampIndex (v lower upper nI : Int) : Int :=
  if v < 0 then max (v + nI) lower else min v upper

/-- `s.indices(n)`: CPython's normalization of a slice against a
sequence length, returning `(start, stop, step)`.  CPython raises
`ValueError` for a zero step; no code in this module builds such a
slice, and the zero-step branch here is an arbitrary empty range. -/
def pyIndices (s : PySlice) (n : Nat) : Int × Int × Int :=
  if 0 < s.step.getD 1 then
    ((match s.start with | none => 0 | some v => clampIndex v 0 (n : Int) (n : Int)),
     (match s.stop with | none => (n : Int) | some v => clampIndex v 0 (n : Int) (n : Int)),
     s.step.getD 1)
  else if s.step.getD 1 < 0 then
    ((match s.start with
      | none => (n : Int) - 1
      | some v => clampIndex v (-1) ((n : Int) - 1) (n : Int)),
     (match s.stop with
      | none => -1
      | some v => clampIndex v (-1) ((n : Int) - 1) (n : Int)),
     s.step.getD 1)
  else (0, 0, 1)

/-- Number of elements of `range(start, stop, step)` for nonzero step. -/
def rangeCount (start stop step : Int) : Nat :=
  if 0 < step then
    (if start < stop then ((stop - start + step - 1) / step).toNat else 0)
  else if step < 0 then
    (if stop < start then ((start - stop - step - 1) / (-step)).toNat else 0)
  else 0

/-- The elements of `range(start, stop, step)`. -/
def rangeList (start stop step : Int) : List Int :=
  (List.range (rangeCount start stop step)).map (fun k : Nat => start + step * (k : Int))

/-- `range(*s.indices(len))` — the concrete index list a slice selects. -/
def pySliceIdxs (s : PySlice) (n : Nat) : List Int :=
  match pyIndices s n with
  | (a, b, st) => rangeList a b st

/-- `xs[s]` on a Python list: gather the selected indices (all of which
are in range after normalization, so the default is never used). -/
def pyGetSlice (xs : List LNode) (s : PySlice) : List LNode :=
  (pySliceIdxs s xs.length).map (fun i => xs.getD i.toNat (.leaf ""))

/-- A `Pointer` produced by a layout filter: the index path of the
target plus the addressed field's name (the name is never read by
`layout_slice.py`). -/
structure Pointer : Type where
  positions : List Int
  name : String
deriving DecidableEq, Repr

/-- The key accepted by `Layout.__getitem__` and handed to
`LayoutSlice.__init__`: a single integer, a slice, or a pointer list. -/
inductive LKey : Type where
  | int : Int → LKey
  | slc : PySlice → LKey
  | pointers : List Pointer → LKey

/-- A `LayoutSlice`: the layout tree (its root is always a `Layout`
node) plus the canonicalized selection. -/
structure LayoutSlice : Type where
  layout : LNode
  slice : PySlice ⊕ List Pointer

/-- `LayoutSlice.__init__`: an integer key `k` is canonicalized to
`slice(k, k + 1, 1)`; slices and pointer lists are stored as given. -/
def LayoutSlice.make (layout : LNode) (key : LKey) : LayoutSlice :=
  match key with
  | .int k => ⟨layout, .inl ⟨some k, some (k + 1), some 1⟩⟩
  | .slc s => ⟨layout, .inl s⟩
  | .pointers ps => ⟨layout, .inr ps⟩

/-- The union type of `wrapped_object`'s `fields` parameter: the code
branches on `isinstance(fields, list)`. -/
inductive FieldsArg : Type where
  | single : LNode → FieldsArg
  | list : List LNode → FieldsArg

/-- The tuple `_fields` that `wrapped_object` spreads into the
constructor: a list value is spread, anything else is a 1-tuple. -/
def fieldsTuple : FieldsArg → List LNode
  | .single x => [x]
  | .list xs => xs

/-- `LayoutSlice.args_first`: the kinds whose constructors need the
positional `args` before the wrapped fields (`Fieldset`, `MultiField`,
`Container`). -/
def args_first (K : Kind) : Bool :=
  match K with
  | .fieldset => true
  | .multiField => true
  | .container => true
  | _ => false

/-- `LayoutSlice.wrapped_object`: build the wrapping node.  With
positional `args` the wrapped fields are combined with them —
args-first kinds get `args + _fields`, the rest get `_fields + args`;
without `args`, a list value is spread and any other value passed
alone.  Keyword arguments go to the constructor unchanged. -/
def wrapped_object (LayoutClass : Kind) (fields : FieldsArg)
    (args : List String) (kwargs : Attrs) : LNode :=
  if args ≠ [] then
    let arguments :=
      if args_first LayoutClass then
        args.map LNode.leaf ++ fieldsTuple fields
      else
        fieldsTuple fields ++ args.map LNode.leaf
    .node LayoutClass kwargs arguments
  else
    match fields with
    | .list xs => .node LayoutClass kwargs xs
    | .single x => .node LayoutClass kwargs [x]

/-- The `wrap_object` callback of `LayoutSlice.wrap`: replace
`layout_object.fields[j]` with a wrapper around its current value.  On
a string the `fields` access is an `AttributeError`; an out-of-range
`j` is an `IndexError` from the read of `fields[j]`. -/
def wrap_object (K : Kind) (args : List String) (kwargs : Attrs)
    (layout_object : LNode) (j : Int) : Except PyErr LNode :=
  match layout_object with
  | .leaf _ => .error .attributeError
  | .node k a fs =>
      match pyGetE fs j with
      | .error e => .error e
      | .ok cur =>
          match pySet fs j (wrapped_object K (.single cur) args kwargs) with
          | .error e => .error e
          | .ok fs' => .ok (.node k a fs')

/-- The `wrap_object_once` callback of `LayoutSlice.wrap_once`: skip
the slot entirely when the visited object (the slot's parent) is
already an instance of the target class. -/
def wrap_object_once (K : Kind) (args : List String) (kwargs : Attrs)
    (layout_object : LNode) (j : Int) : Except PyErr LNode :=
  if isInstanceOf layout_object K then .ok layout_object
  else wrap_object K args kwargs layout_object j

/-- The nested-pointer part of `pre_map`: descend from `cur` through
the intermediate indices, then run `function` on the deepest object and
the last index, converting only an `IndexError` raised by that final
call into `DynamicError`.  Descent failures (bad intermediate index,
or entering a string) propagate as they are.  The updated deepest
object is written back along the path (in Python the mutation is in
place through object identity). -/
def visitNested (f : LNode → Int → Except PyErr LNode) :
    LNode → List Int → Int → Except PyErr LNode
  | cur, [], last =>
      match f cur last with
      | .error .indexError => .error .dynamicError
      | r => r
  | cur, i :: is, last =>
      match cur with
      | .leaf _ => .error .attributeError
      | .node k a fs =>
          match pyIdxE fs.length i with
          | .error e => .error e
          | .ok j =>
              match visitNested f (fs.getD j (.leaf "")) is last with
              | .error e => .error e
              | .ok c' => .ok (.node k a (fs.set j c'))

/-- One pointer of the pointer-list branch of `pre_map`: a one-element
path runs `function` on the root directly (no `try`/`except`); a
longer path goes through `visitNested`.  An empty position list would
raise `IndexError` at `positions[0]` in Python. -/
def runPointer (f : LNode → Int → Except PyErr LNode) (root : LNode)
    (p : Pointer) : Except PyErr LNode :=
  match p.positions with
  | [] => .error .indexError
  | j :: js =>
      match js with
      | [] => f root j
      | _ :: _ => visitNested f root ((j :: js).dropLast) (js.getLastD 0)

/-- The slice branch of `pre_map`: run `function(self.layout, i)` for
each normalized index, threading the mutated tree; an exception stops
the loop and leaves the partial mutations in place. -/
def preMapSlice (f : LNode → Int → Except PyErr LNode) :
    List Int → LNode → Option PyErr × LNode
  | [], t => (none, t)
  | i :: is, t =>
      match f t i with
      | .ok t' => preMapSlice f is t'
      | .error e => (some e, t)

/-- The pointer-list branch of `pre_map`, threaded the same way. -/
def preMapPointers (f : LNode → Int → Except PyErr LNode) :
    List Pointer → LNode → Option PyErr × LNode
  | [], t => (none, t)
  | p :: ps, t =>
      match runPointer f t p with
      | .ok t' => preMapPointers f ps t'
      | .error e => (some e, t)

/-- `LayoutSlice.pre_map`: resolve the selection and run the callback
at every (container, index) target.  The slice's index range is
normalized once, against the tree's child count before any mutation. -/
def pre_map (ls : LayoutSlice) (f : LNode → Int → Except PyErr LNode) :
    Option PyErr × LNode :=
  match ls.slice with
  | .inl s => preMapSlice f (pySliceIdxs s ls.layout.fields.length) ls.layout
  | .inr ps => preMapPointers f ps ls.layout

/-- `LayoutSlice.wrap`. -/
def wrap (ls : LayoutSlice) (K : Kind) (args : List String)
    (kwargs : Attrs) : Option PyErr × LNode :=
  pre_map ls (wrap_object K args kwargs)

/-- `LayoutSlice.wrap_once`. -/
def wrap_once (ls : LayoutSlice) (K : Kind) (args : List String)
    (kwargs : Attrs) : Option PyErr × LNode :=
  pre_map ls (wrap_object_once K args kwargs)

/-- The deletion loop of `wrap_together`: `del self.layout.fields[i]`
for the normalized indices in reversed order, skipping the raw `start`
value (integer comparison with the possibly un-normalized slice
start). -/
def delLoop (start : Int) : List Int → List LNode → Option PyErr × List LNode
  | [], fs => (none, fs)
  | i :: is, fs =>
      if i ≠ start then
        match pyDel fs i with
        | .ok fs' => delLoop start is fs'
        | .error e => (some e, fs)
      else delLoop start is fs

/-- `LayoutSlice.wrap_together`: on a slice, wrap the whole selected
sub-list into one new node placed at the slice's raw `start` (default
0) and delete the other selected slots in reversed index order; on a
pointer list, raise `DynamicError` before touching the tree. -/
def wrap_together (ls : LayoutSlice) (K : Kind) (args : List String)
    (kwargs : Attrs) : Option PyErr × LNode :=
  match ls.slice with
  | .inl s =>
      match ls.layout with
      | .leaf str => (some .attributeError, .leaf str)
      | .node k a fs =>
          let start : Int := s.start.getD 0
          let layout_object := pyGetSlice fs s
          match pySet fs start (wrapped_object K (.list layout_object) args kwargs) with
          | .error e => (some e, .node k a fs)
          | .ok fs1 =>
              match delLoop start (pySliceIdxs s fs1.length).reverse fs1 with
              | (eOpt, fs2) => (eOpt, .node k a fs2)
  | .inr _ => (some .dynamicError, ls.layout)

/-- The node sitting at a (normalized, valid) index path. -/
def nodeAt : LNode → List Nat → LNode
  | t, [] => t
  | t, j :: js => nodeAt (t.fields.getD j (.leaf "")) js

/-- Functional write-back at a (normalized, valid) index path,
modelling in-place mutation of the addressed object. -/
def setNodeAt : LNode → List Nat → LNode → LNode
  | _, [], x => x
  | .leaf s, _ :: _, _ => .leaf s
  | .node k a fs, j :: js, x =>
      .node k a (fs.set j (setNodeAt (fs.getD j (.leaf "")) js x))

/-- The descent loop of `LayoutSlice.map` over `positions[1:]`,
tracking `layout_object` (as a normalized path from the root) and
`previous_layout_object` (the object it pointed at before the last
step, `none` while the local variable is still unassigned). -/
def walkPath (root : LNode) :
    List Nat → Option (List Nat) → List Int →
    Except PyErr (List Nat × Option (List Nat))
  | path, prev, [] => .ok (path, prev)
  | path, _, i :: is =>
      match nodeAt root path with
      | .leaf _ => .error .attributeError
      | .node _ _ fs =>
          match pyIdxE fs.length i with
          | .error e => .error e
          | .ok j => walkPath root (path ++ [j]) (some path) is

/-- One pointer of `LayoutSlice.map`: resolve the full position path,
then run `function` on the resolved node — except that `update_attrs`
applied to a string leaf is redirected to `previous_layout_object`,
which is an `UnboundLocalError` when the descent loop never ran and no
earlier pointer of the same call assigned it. -/
def mapPtrStep (fname : String) (f : LNode → LNode) (root : LNode)
    (prev : Option (List Nat)) (positions : List Int) :
    Except PyErr (LNode × Option (List Nat)) :=
  match positions with
  | [] => .error .indexError
  | p0 :: rest =>
      match pyIdxE root.fields.length p0 with
      | .error e => .error e
      | .ok j0 =>
          match walkPath root [j0] prev rest with
          | .error e => .error e
          | .ok (path, prev') =>
              let target := nodeAt root path
              if fname = "update_attrs" ∧ target.isLeaf then
                match prev' with
                | none => .error .unboundLocalError
                | some q => .ok (setNodeAt root q (f (nodeAt root q)), prev')
              else
                .ok (setNodeAt root path (f target), prev')

/-- The pointer-list branch of `LayoutSlice.map`, threading the tree
and the `previous_layout_object` binding across pointers. -/
def mapPointers (fname : String) (f : LNode → LNode) :
    List Pointer → Option (List Nat) → LNode → Option PyErr × LNode
  | [], _, t => (none, t)
  | p :: ps, prev, t =>
      match mapPtrStep fname f t prev p.positions with
      | .ok (t', prev') => mapPointers fname f ps prev' t'
      | .error e => (some e, t)

/-- The slice branch of `LayoutSlice.map`: run `function` on each
selected immediate child (the normalized indices are always in range,
so the fallback branches are never taken). -/
def mapSlice (f : LNode → LNode) : List Int → LNode → LNode
  | [], t => t
  | i :: is, t =>
      match t with
      | .leaf s => mapSlice f is (.leaf s)
      | .node k a fs =>
          match pyIdx fs.length i with
          | some j => mapSlice f is (.node k a (fs.set j (f (fs.getD j (.leaf "")))))
          | none => mapSlice f is (.node k a fs)

/-- `LayoutSlice.map`: iterate `function` over the resolved nodes
themselves.  The string special case keys on the callback's `__name__`,
modelled by the explicit `fname` argument. -/
def mapOp (fname : String) (f : LNode → LNode) (ls : LayoutSlice) :
    Option PyErr × LNode :=
  match ls.slice with
  | .inl s => (none, mapSlice f (pySliceIdxs s ls.layout.fields.length) ls.layout)
  | .inr ps => mapPointers fname f ps none ls.layout

/-- The `update_attrs` callback of `LayoutSlice.update_attributes`:
nodes without an `attrs` mapping (string leaves) are untouched;
`css_class` appends space-separated to an existing `class` attribute or
sets it; the remaining keyword arguments are merged with plain
overwrite. -/
def update_attrs (original_kwargs : Attrs) (layout_object : LNode) : LNode :=
  match layout_object with
  | .leaf s => .leaf s
  | .node k attrs fs =>
      match dictGet original_kwargs "css_class" with
      | some v =>
          let attrs1 :=
            match dictGet attrs "class" with
            | some c => dictSet attrs "class" (c ++ " " ++ v)
            | none => dictSet attrs "class" v
          .node k (dictUpdate attrs1 (dictRemove original_kwargs "css_class")) fs
      | none => .node k (dictUpdate attrs original_kwargs) fs

/-- `LayoutSlice.update_attributes`. -/
def update_attributes (ls : LayoutSlice) (original_kwargs : Attrs) :
    Option PyErr × LNode :=
  mapOp "update_attrs" (update_attrs original_kwargs) ls

/-- Pure observer of `pre_map`'s descent: the object reached from
`cur` after entering the given intermediate indices, if that descent
succeeds. -/
def resolvePath : LNode → List Int → Option LNode
  | cur, [] => some cur
  | cur, i :: is =>
      match cur with
      | .leaf _ => none
      | .node _ _ fs =>
          match pyIdx fs.length i with
          | some j => resolvePath (fs.getD j (.leaf "")) is
          | none => none

/-- The same descent with the exception it raises on failure: an
out-of-range intermediate index is an `IndexError`, entering a string
an `AttributeError`. -/
def descendResult : LNode → List Int → Except PyErr LNode
  | cur, [] => .ok cur
  | cur, i :: is =>
      match cur with
      | .leaf _ => .error .attributeError
      | .node _ _ fs =>
          match pyIdxE fs.length i with
          | .error e => .error e
          | .ok j => descendResult (fs.getD j (.leaf "")) is

/-- `KeepContext.__exit__` (`crispy_forms/base.py`): whatever the exit
reason, delete from the context every listed key that is present in it.
The external `django.template.Context` is modelled as a flat mutable
string map; the exception triple passed to `__exit__` is ignored by the
code and therefore not modelled. -/
def keepContextExit (context : Attrs) (keys : List String) : Attrs :=
  keys.foldl (fun ctx key => if dictContains ctx key then dictRemove ctx key else ctx) context

theorem dictGet_dictSet_self (d : Attrs) (k v : String) :
    dictGet (dictSet d k v) k = some v := by
  induction d with
  | nil => simp [dictSet, dictGet]
  | cons kv rest ih =>
      obtain ⟨k', v'⟩ := kv
      by_cases hk : k' = k
      · simp [dictSet, hk, dictGet]
      · simp [dictSet, hk, dictGet, ih]

theorem dictRemove_cons (k' v' : String) (rest : Attrs) (k : String) :
    dictRemove ((k', v') :: rest) k
      = if k' = k then dictRemove rest k else (k', v') :: dictRemove rest k := by
  by_cases h : k' = k <;> simp [dictRemove, List.filter_cons, h]

theorem dictGet_dictRemove (d : Attrs) (k q : String) :
    dictGet (dictRemove d k) q = if q = k then none else dictGet d q := by
  induction d with
  | nil => simp [dictRemove, dictGet]
  | cons kv rest ih =>
      obtain ⟨k', v'⟩ := kv
      rw [dictRemove_cons]
      by_cases hk : k' = k
      · rw [if_pos hk, ih]
        by_cases hq : q = k
        · simp [hq]
        · have hk'q : ¬ (k' = q) := by rw [hk]; exact fun e => hq e.symm
          simp [hq, dictGet, hk'q]
      · rw [if_neg hk]
        by_cases hq' : k' = q
        · have hqk : ¬ (q = k) := fun e => hk (hq'.trans e)
          simp [dictGet, hq', hqk]
        · simp [dictGet, hq', ih]

theorem keepContextExit_cons (ctx : Attrs) (key : String) (rest : List String) :
    keepContextExit ctx (key :: rest)
      = keepContextExit (if dictContains ctx key then dictRemove ctx key else ctx) rest := rfl

theorem dictGet_keepContextExit_none (keys : List String) :
    ∀ (ctx : Attrs) (k : String), dictGet ctx k = none →
      dictGet (keepContextExit ctx keys) k = none := by
  induction keys with
  | nil => intro ctx k h; exact h
  | cons key rest ih =>
      intro ctx k h
      rw [keepContextExit_cons]
      by_cases hc : dictContains ctx key
      · rw [if_pos hc]
        apply ih
        rw [dictGet_dictRemove]
        by_cases hkk : k = key <;> simp [hkk, h]
      · rw [if_neg hc]
        exact ih ctx k h

/-- Claim C10 (confirmed): after `KeepContext.__exit__`, every listed
key that was present is gone, every listed key that was absent is
skipped leaving the context untouched, and every unlisted key keeps its
binding. -/
theorem claim_C10 (ctx : Attrs) (keys : List String) :
    (∀ k, k ∈ keys → dictGet (keepContextExit ctx keys) k = none)
    ∧ (∀ k, k ∉ keys → dictGet (keepContextExit ctx keys) k = dictGet ctx k)
    ∧ ((∀ k, k ∈ keys → dictContains ctx k = false) → keepContextExit ctx keys = ctx) := by
  refine ⟨?_, ?_, ?_⟩
  · intro k hk
    induction keys generalizing ctx with
    | nil => cases hk
    | cons key rest ih =>
        rw [keepContextExit_cons]
        rcases List.mem_cons.mp hk with hk1 | hk2
        · subst hk1
          apply dictGet_keepContextExit_none
          by_cases hc : dictContains ctx k
          · rw [if_pos hc, dictGet_dictRemove, if_pos rfl]
          · rw [if_neg hc]
            have : ¬ (dictGet ctx k).isSome := by simpa [dictContains] using hc
            cases hg : dictGet ctx k with
            | none => rfl
            | some v => rw [hg] at this; simp at this
        · by_cases hc : dictContains ctx key
          · rw [if_pos hc]; exact ih (dictRemove ctx key) hk2
          · rw [if_neg hc]; exact ih ctx hk2
  · intro k hk
    induction keys generalizing ctx with
    | nil => rfl
    | cons key rest ih =>
        have hkk : k ≠ key := fun e => hk (e ▸ List.mem_cons_self key rest)
        have hkr : k ∉ rest := fun hm => hk (List.mem_cons_of_mem key hm)
        rw [keepContextExit_cons]
        by_cases hc : dictContains ctx key
        · rw [if_pos hc, ih (dictRemove ctx key) hkr, dictGet_dictRemove, if_neg hkk]
        · rw [if_neg hc, ih ctx hkr]
  · intro habs
    induction keys with
    | nil => rfl
    | cons key rest ih =>
        rw [keepContextExit_cons, if_neg, ih]
        · intro k hk; exact habs k (List.mem_cons_of_mem key hk)
        · simp [habs key (List.mem_cons_self key rest)]

/-- Witness for C10 at a concrete context and key list. -/
theorem claim_C10_witness :
    ("a" ∈ ["a", "zz"]
      ∧ dictGet (keepContextExit [("a", "1"), ("b", "2")] ["a", "zz"]) "a" = none)
    ∧ ("b" ∉ ["a", "zz"]
      ∧ dictGet (keepContextExit [("a", "1"), ("b", "2")] ["a", "zz"]) "b" = some "2") :=
  ⟨⟨by simp, (claim_C10 [("a", "1"), ("b", "2")] ["a", "zz"]).1 "a" (by simp)⟩,
   ⟨by simp, ((claim_C10 [("a", "1"), ("b", "2")] ["a", "zz"]).2.1 "b" (by simp)).trans rfl⟩⟩

/-- Claim C4 (confirmed): `wrap_together` on an explicit pointer-list
selection raises `DynamicError` and returns the tree untouched, for
every tree and every pointer list. -/
theorem claim_C4 (root : LNode) (ps : List Pointer) (K : Kind)
    (args : List String) (kwargs : Attrs) :
    wrap_together ⟨root, .inr ps⟩ K args kwargs = (some .dynamicError, root) := rfl

/-- Claim C7 (confirmed): with nonempty positional `args`, args-first
kinds (exactly `Fieldset`, `MultiField`, `Container`) receive `args`
then the wrapped fields, all other kinds the wrapped fields then
`args`; keyword arguments pass through unchanged; a list of fields is
spread while any other value is passed as a single argument. -/
theorem claim_C7 (K : Kind) (fields : FieldsArg) (args : List String)
    (kwargs : Attrs) :
    (args ≠ [] →
      wrapped_object K fields args kwargs
        = .node K kwargs
            (if args_first K then args.map LNode.leaf ++ fieldsTuple fields
             else fieldsTuple fields ++ args.map LNode.leaf))
    ∧ (args_first K = true ↔ K = .fieldset ∨ K = .multiField ∨ K = .container)
    ∧ (∀ xs : List LNode, wrapped_object K (.list xs) [] kwargs = .node K kwargs xs)
    ∧ (∀ x : LNode, wrapped_object K (.single x) [] kwargs = .node K kwargs [x]) := by
  refine ⟨?_, ?_, ?_, ?_⟩
  · intro h
    rw [wrapped_object.eq_def, if_pos h]
  · cases K <;> simp [args_first]
  · intro xs; rfl
  · intro x; rfl

/-- Claim C6 (confirmed): `update_attrs` with `css_class = x` on a
node with attributes and no existing `class` sets `class` to `x`; a
second application with `css_class = y` appends, producing
`x ++ " " ++ y`; any key other than `css_class` overwrites its
attribute unconditionally. -/
theorem claim_C6 (k : Kind) (a : Attrs) (fs : List LNode) (x y : String)
    (h : dictGet a "class" = none) :
    dictGet (attrsOf (update_attrs [("css_class", x)] (.node k a fs))) "class" = some x
    ∧ dictGet (attrsOf (update_attrs [("css_class", y)]
        (update_attrs [("css_class", x)] (.node k a fs)))) "class"
        = some (x ++ " " ++ y)
    ∧ (∀ (key v : String) (d : Attrs), key ≠ "css_class" →
        dictGet (attrsOf (update_attrs [(key, v)] (.node k d fs))) key = some v) := by
  have hrem : dictRemove [("css_class", x)] "css_class" = [] := by
    simp [dictRemove, List.filter_cons]
  have h1 : update_attrs [("css_class", x)] (.node k a fs)
      = .node k (dictSet a "class" x) fs := by
    simp [update_attrs, dictGet, h, hrem, dictUpdate]
  refine ⟨?_, ?_, ?_⟩
  · rw [h1]
    exact dictGet_dictSet_self a "class" x
  · rw [h1]
    have h2 : dictGet (dictSet a "class" x) "class" = some x :=
      dictGet_dictSet_self a "class" x
    have hrem2 : dictRemove [("css_class", y)] "css_class" = [] := by
      simp [dictRemove, List.filter_cons]
    simp [update_attrs, dictGet, h2, hrem2, dictUpdate, attrsOf]
    exact dictGet_dictSet_self (dictSet a "class" x) "class" (x ++ " " ++ y)
  · intro key v d hkey
    have hnone : dictGet [(key, v)] "css_class" = none := by
      simp [dictGet, hkey]
    simp [update_attrs, hnone, dictUpdate, attrsOf]
    exact dictGet_dictSet_self d key v

/-- Witness for C6 at a concrete node and classes. -/
theorem claim_C6_witness :
    dictGet ([("id", "i1")] : Attrs) "class" = none
    ∧ dictGet (attrsOf (update_attrs [("css_class", "y")]
        (update_attrs [("css_class", "x")] (.node .div [("id", "i1")] []))))
        "class" = some "x y" :=
  ⟨rfl,
   by
    have h := (claim_C6 .div [("id", "i1")] [] "x" "y" rfl).2.1
    simpa using h⟩

/-- Witness for C7 at a concrete args-first construction. -/
theorem claim_C7_witness :
    (["legend"] : List String) ≠ []
    ∧ wrapped_object .fieldset (.single (.leaf "f")) ["legend"] [("k", "v")]
        = .node .fieldset [("k", "v")] [.leaf "legend", .leaf "f"] :=
  ⟨by simp,
   by
    have h := (claim_C7 .fieldset (.single (.leaf "f")) ["legend"] [("k", "v")]).1 (by simp)
    simpa using h⟩

theorem wrap_object_shape (K : Kind) (args : List String) (kwargs : Attrs)
    (k : Kind) (a : Attrs) (fs : List LNode) (i : Int) (t' : LNode)
    (h : wrap_object K args kwargs (.node k a fs) i = .ok t') :
    ∃ fs', t' = .node k a fs' := by
  rw [wrap_object] at h
  split at h
  · cases h
  · split at h
    · cases h
    · injection h with h
      exact ⟨_, h.symm⟩

theorem preMapSlice_wrap_object_shape (K : Kind) (args : List String)
    (kwargs : Attrs) (idxs : List Int) :
    ∀ (k : Kind) (a : Attrs) (fs : List LNode),
      ∃ eOpt fs', preMapSlice (wrap_object K args kwargs) idxs (.node k a fs)
        = (eOpt, .node k a fs') := by
  induction idxs with
  | nil => intro k a fs; exact ⟨none, fs, rfl⟩
  | cons i is ih =>
      intro k a fs
      cases hw : wrap_object K args kwargs (.node k a fs) i with
      | error e => exact ⟨some e, fs, by rw [preMapSlice, hw]⟩
      | ok t' =>
          obtain ⟨fs2, ht⟩ := wrap_object_shape K args kwargs k a fs i t' hw
          subst ht
          obtain ⟨eOpt, fs3, hrec⟩ := ih k a fs2
          exact ⟨eOpt, fs3, by rw [preMapSlice, hw]; exact hrec⟩

theorem preMapSlice_wrap_once_skip (K : Kind) (args : List String)
    (kwargs : Attrs) (idxs : List Int) (a : Attrs) (fs : List LNode) :
    preMapSlice (wrap_object_once K args kwargs) idxs (.node K a fs)
      = (none, .node K a fs) := by
  induction idxs with
  | nil => rfl
  | cons i is ih =>
      have hskip : wrap_object_once K args kwargs (.node K a fs) i
          = .ok (.node K a fs) := by
        simp [wrap_object_once, isInstanceOf]
      rw [preMapSlice, hskip]
      exact ih

/-- Claim C1 (corrected): `wrap_once` skips a slot precisely when the
node holding the slot — for a single-index selection, the root — is
already an instance of the kind, not when the slot's current value is.
Hence wrap-then-wrap-once equals wrap alone whenever the root is an
instance of the kind (here: whenever the root's kind is the target
kind), for every child list, key and argument list. -/
theorem claim_C1 (K : Kind) (a : Attrs) (fs : List LNode) (j : Int)
    (args : List String) (kwargs : Attrs) :
    wrap_once
        (LayoutSlice.make
          ((wrap (LayoutSlice.make (.node K a fs) (.int j)) K args kwargs).2)
          (.int j)) K args kwargs
      = (none, (wrap (LayoutSlice.make (.node K a fs) (.int j)) K args kwargs).2) := by
  obtain ⟨eOpt, fs', h⟩ :=
    preMapSlice_wrap_object_shape K args kwargs
      (pySliceIdxs ⟨some j, some (j + 1), some 1⟩ (LNode.fields (.node K a fs)).length)
      K a fs
  have h2 : (wrap (LayoutSlice.make (.node K a fs) (.int j)) K args kwargs).2
      = .node K a fs' := congrArg Prod.snd h
  rw [h2]
  exact preMapSlice_wrap_once_skip K args kwargs _ a fs'

/-- Counterexample to C1 as stated: on the root `Layout[leaf a]`, wrap
child 0 in a `field` node and then `wrap_once(field)` the same
selection; the slot's current value is already a `field` instance, yet
the second call wraps again because the root (the visited parent) is a
`Layout`, so the trees differ. -/
theorem claim_C1_counterexample :
    (wrap_once
        (LayoutSlice.make
          ((wrap (LayoutSlice.make (.node .layout [] [.leaf "a"]) (.int 0)) .field [] []).2)
          (.int 0)) .field [] []).2
      ≠ (wrap (LayoutSlice.make (.node .layout [] [.leaf "a"]) (.int 0)) .field [] []).2 := by
  intro h
  have h2 : LNode.node .layout [] [.node .field [] [.node .field [] [.leaf "a"]]]
      = LNode.node .layout [] [.node .field [] [.leaf "a"]] := h
  simp at h2

/-- Claim C5 (corrected): for a multi-element Path whose resolved node
is a string leaf, `update_attributes` invokes the callback on the
immediately enclosing non-leaf node (the object at the path without
its final index) instead of the leaf. -/
theorem claim_C5 (root : LNode) (kwargs : Attrs) (p0 : Int)
    (rest : List Int) (nm : String) (j0 : Nat) (path prevPath : List Nat)
    (h0 : pyIdxE root.fields.length p0 = .ok j0)
    (hw : walkPath root [j0] none rest = .ok (path, some prevPath))
    (hl : (nodeAt root path).isLeaf = true) :
    update_attributes (LayoutSlice.make root (.pointers [⟨p0 :: rest, nm⟩])) kwargs
      = (none, setNodeAt root prevPath (update_attrs kwargs (nodeAt root prevPath))) := by
  have hstep : mapPtrStep "update_attrs" (update_attrs kwargs) root none (p0 :: rest)
      = .ok (setNodeAt root prevPath (update_attrs kwargs (nodeAt root prevPath)),
             some prevPath) := by
    simp only [mapPtrStep, h0, hw]
    rw [if_pos ⟨trivial, hl⟩]
  show mapPointers "update_attrs" (update_attrs kwargs) [⟨p0 :: rest, nm⟩] none root = _
  rw [mapPointers, hstep]
  rfl

/-- Counterexample to C5 as stated: a one-element Path `[0]` to a
top-level string leaf does not fall back to the root — the descent loop
never ran, `previous_layout_object` is unbound, and the operation fails
with `UnboundLocalError`, leaving the tree untouched rather than
setting `class` on the root. -/
theorem claim_C5_counterexample :
    update_attributes
        (LayoutSlice.make (.node .layout [] [.leaf "a"]) (.pointers [⟨[0], "a"⟩]))
        [("css_class", "x")]
      = (some .unboundLocalError, .node .layout [] [.leaf "a"])
    ∧ update_attributes
        (LayoutSlice.make (.node .layout [] [.leaf "a"]) (.pointers [⟨[0], "a"⟩]))
        [("css_class", "x")]
      ≠ (none, .node .layout [("class", "x")] [.leaf "a"]) := by
  refine ⟨rfl, ?_⟩
  intro h
  have h2 : ((some PyErr.unboundLocalError : Option PyErr),
        LNode.node .layout [] [.leaf "a"])
      = (none, LNode.node .layout [("class", "x")] [.leaf "a"]) := h
  simp at h2

/-- Witness for C5 at a concrete nested leaf: `Path [0, 0]` resolves to
the leaf inside a `div`; the `class` attribute lands on the `div`. -/
theorem claim_C5_witness :
    pyIdxE (LNode.fields (.node .layout [] [.node .div [] [.leaf "f"]])).length 0
        = .ok 0
    ∧ walkPath (.node .layout [] [.node .div [] [.leaf "f"]]) [0] none [0]
        = .ok ([0, 0], some [0])
    ∧ (nodeAt (.node .layout [] [.node .div [] [.leaf "f"]]) [0, 0]).isLeaf = true
    ∧ update_attributes
        (LayoutSlice.make (.node .layout [] [.node .div [] [.leaf "f"]])
          (.pointers [⟨[0, 0], "f"⟩]))
        [("css_class", "x")]
      = (none, .node .layout [] [.node .div [("class", "x")] [.leaf "f"]]) :=
  ⟨rfl, rfl, rfl,
   by
    have h := claim_C5 (.node .layout [] [.node .div [] [.leaf "f"]])
      [("css_class", "x")] 0 [0] "f" 0 [0, 0] [0] rfl rfl rfl
    simpa using h⟩

theorem visitNested_descend_err (mids : List Int) :
    ∀ (root : LNode) (e : PyErr), descendResult root mids = .error e →
      ∀ (f : LNode → Int → Except PyErr LNode) (last : Int),
        visitNested f root mids last = .error e := by
  induction mids with
  | nil =>
      intro root e h f last
      cases h
  | cons i is ih =>
      intro root e h f last
      cases root with
      | leaf s =>
          cases h
          rfl
      | node k a fs =>
          rw [descendResult] at h
          rw [visitNested]
          cases hj : pyIdxE fs.length i with
          | error e' =>
              rw [hj] at h
              cases h
              rfl
          | ok j =>
              rw [hj] at h
              have h' : descendResult (fs.getD j (.leaf "")) is = .error e := h
              have hv := ih (fs.getD j (.leaf "")) e h' f last
              show (match visitNested f (fs.getD j (.leaf "")) is last with
                | .error e => Except.error e
                | .ok c' => Except.ok (LNode.node k a (fs.set j c'))) = Except.error e
              rw [hv]

theorem visitNested_final (mids : List Int) :
    ∀ (root D : LNode), descendResult root mids = .ok D →
      ∀ (f : LNode → Int → Except PyErr LNode) (last : Int),
        f D last = .error .indexError →
        visitNested f root mids last = .error .dynamicError := by
  induction mids with
  | nil =>
      intro root D h f last hf
      cases h
      rw [visitNested, hf]
  | cons i is ih =>
      intro root D h f last hf
      cases root with
      | leaf s => cases h
      | node k a fs =>
          rw [descendResult] at h
          rw [visitNested]
          cases hj : pyIdxE fs.length i with
          | error e' =>
              rw [hj] at h
              cases h
          | ok j =>
              rw [hj] at h
              have h' : descendResult (fs.getD j (.leaf "")) is = .ok D := h
              have hv := ih (fs.getD j (.leaf "")) D h' f last hf
              show (match visitNested f (fs.getD j (.leaf "")) is last with
                | .error e => Except.error e
                | .ok c' => Except.ok (LNode.node k a (fs.set j c'))) = Except.error .dynamicError
              rw [hv]

theorem runPointer_multi (f : LNode → Int → Except PyErr LNode)
    (root : LNode) (p0 : Int) (mids : List Int) (last : Int) (nm : String) :
    runPointer f root ⟨p0 :: (mids ++ [last]), nm⟩
      = visitNested f root (p0 :: mids) last := by
  cases mids with
  | nil => rfl
  | cons m ms =>
      show visitNested f root ((p0 :: m :: (ms ++ [last])).dropLast)
          ((m :: (ms ++ [last])).getLastD 0) = _
      rw [show p0 :: m :: (ms ++ [last]) = (p0 :: m :: ms) ++ [last] by simp,
          List.dropLast_concat,
          show m :: (ms ++ [last]) = (m :: ms) ++ [last] by simp,
          List.getLastD_concat]

theorem wrap_object_oob (K : Kind) (args : List String) (kwargs : Attrs)
    (dk : Kind) (da : Attrs) (dfs : List LNode) (last : Int)
    (h : pyIdx dfs.length last = none) :
    wrap_object K args kwargs (.node dk da dfs) last = .error .indexError := by
  rw [wrap_object]
  have hg : pyGetE dfs last = .error .indexError := by
    rw [pyGetE, pyIdxE, h]
    rfl
  rw [hg]

/-- Claim C3 (confirmed): for a multi-element Path whose descent
through the intermediate indices reaches a structural node but whose
final index is out of that node's range, `wrap` raises the dedicated
`DynamicError`, and so does `wrap_once` whenever its body actually
performs the indexing (i.e. the deepest node is not an instance of the
target kind — otherwise `wrap_once` skips before touching the index). -/
theorem claim_C3 (root : LNode) (p0 : Int) (mids : List Int) (last : Int)
    (nm : String) (K : Kind) (args : List String) (kwargs : Attrs)
    (dk : Kind) (da : Attrs) (dfs : List LNode)
    (hD : descendResult root (p0 :: mids) = .ok (.node dk da dfs))
    (hoob : pyIdx dfs.length last = none) :
    wrap ⟨root, .inr [⟨p0 :: (mids ++ [last]), nm⟩]⟩ K args kwargs
        = (some .dynamicError, root)
    ∧ (dk ≠ K →
        wrap_once ⟨root, .inr [⟨p0 :: (mids ++ [last]), nm⟩]⟩ K args kwargs
          = (some .dynamicError, root)) := by
  constructor
  · have hv : visitNested (wrap_object K args kwargs) root (p0 :: mids) last
        = .error .dynamicError :=
      visitNested_final (p0 :: mids) root (.node dk da dfs) hD _ last
        (wrap_object_oob K args kwargs dk da dfs last hoob)
    show preMapPointers (wrap_object K args kwargs) [⟨p0 :: (mids ++ [last]), nm⟩] root
        = (some .dynamicError, root)
    rw [preMapPointers, runPointer_multi, hv]
  · intro hne
    have hf : wrap_object_once K args kwargs (.node dk da dfs) last
        = .error .indexError := by
      rw [wrap_object_once, if_neg]
      · exact wrap_object_oob K args kwargs dk da dfs last hoob
      · simp [isInstanceOf, hne]
    have hv : visitNested (wrap_object_once K args kwargs) root (p0 :: mids) last
        = .error .dynamicError :=
      visitNested_final (p0 :: mids) root (.node dk da dfs) hD _ last hf
    show preMapPointers (wrap_object_once K args kwargs) [⟨p0 :: (mids ++ [last]), nm⟩] root
        = (some .dynamicError, root)
    rw [preMapPointers, runPointer_multi, hv]

/-- Witness for C3 at the spec's own example: Path `[0, 5]` where
child 0 (a `div` with one child) has fewer than 6 children. -/
theorem claim_C3_witness :
    descendResult (.node .layout [] [.node .div [] [.leaf "x"]]) [0]
        = .ok (.node .div [] [.leaf "x"])
    ∧ pyIdx 1 5 = none
    ∧ Kind.div ≠ Kind.field
    ∧ wrap ⟨.node .layout [] [.node .div [] [.leaf "x"]], .inr [⟨[0, 5], "x"⟩]⟩
        .field [] []
        = (some .dynamicError, .node .layout [] [.node .div [] [.leaf "x"]])
    ∧ wrap_once ⟨.node .layout [] [.node .div [] [.leaf "x"]], .inr [⟨[0, 5], "x"⟩]⟩
        .field [] []
        = (some .dynamicError, .node .layout [] [.node .div [] [.leaf "x"]]) := by
  have h := claim_C3 (.node .layout [] [.node .div [] [.leaf "x"]]) 0 [] 5 "x"
    .field [] [] .div [] [.leaf "x"] rfl rfl
  exact ⟨rfl, rfl, by simp, h.1, h.2 (by simp)⟩

/-- Claim C8 (confirmed): an `IndexError` raised while descending
through the intermediate (non-final) indices of a multi-element Path
propagates out of `wrap` and `wrap_once` as the original `IndexError`,
not wrapped into `DynamicError`. -/
theorem claim_C8 (root : LNode) (p0 : Int) (mids : List Int) (last : Int)
    (nm : String) (K : Kind) (args : List String) (kwargs : Attrs)
    (h : descendResult root (p0 :: mids) = .error .indexError) :
    wrap ⟨root, .inr [⟨p0 :: (mids ++ [last]), nm⟩]⟩ K args kwargs
        = (some .indexError, root)
    ∧ wrap_once ⟨root, .inr [⟨p0 :: (mids ++ [last]), nm⟩]⟩ K args kwargs
        = (some .indexError, root) := by
  constructor
  · show preMapPointers (wrap_object K args kwargs) [⟨p0 :: (mids ++ [last]), nm⟩] root
        = (some .indexError, root)
    rw [preMapPointers, runPointer_multi,
        visitNested_descend_err (p0 :: mids) root .indexError h _ last]
  · show preMapPointers (wrap_object_once K args kwargs) [⟨p0 :: (mids ++ [last]), nm⟩] root
        = (some .indexError, root)
    rw [preMapPointers, runPointer_multi,
        visitNested_descend_err (p0 :: mids) root .indexError h _ last]

/-- Witness for C8: Path `[5, 0]` over a root with one child fails at
the intermediate index 5 and surfaces `IndexError` itself. -/
theorem claim_C8_witness :
    descendResult (.node .layout [] [.node .div [] [.leaf "x"]]) [5]
        = .error .indexError
    ∧ wrap ⟨.node .layout [] [.node .div [] [.leaf "x"]], .inr [⟨[5, 0], "x"⟩]⟩
        .field [] []
        = (some .indexError, .node .layout [] [.node .div [] [.leaf "x"]]) := by
  have h := claim_C8 (.node .layout [] [.node .div [] [.leaf "x"]]) 5 [] 0 "x"
    .field [] [] rfl
  exact ⟨rfl, h.1⟩

theorem pyIdx_coe (n a : Nat) (h : a < n) : pyIdx n (a : Int) = some a := by
  rw [pyIdx, if_neg (by omega : ¬ ((a : Int) < 0)), pyIdxAux,
      if_pos (by omega : (0 : Int) ≤ (a : Int) ∧ (a : Int) < (n : Int))]
  simp

theorem pyIdxE_coe (n a : Nat) (h : a < n) : pyIdxE n (a : Int) = .ok a := by
  rw [pyIdxE, pyIdx_coe n a h]

theorem pySet_coe (fs : List LNode) (a : Nat) (x : LNode) (h : a < fs.length) :
    pySet fs (a : Int) x = .ok (fs.set a x) := by
  rw [pySet, pyIdxE_coe fs.length a h]
  rfl

theorem pyDel_coe (fs : List LNode) (a : Nat) (h : a < fs.length) :
    pyDel fs (a : Int) = .ok (fs.take a ++ fs.drop (a + 1)) := by
  rw [pyDel, pyIdxE_coe fs.length a h]
  rfl

theorem clampIndex_coe (a n : Nat) (h : a ≤ n) :
    clampIndex (a : Int) 0 (n : Int) (n : Int) = (a : Int) := by
  rw [clampIndex, if_neg (by omega : ¬ ((a : Int) < 0))]
  exact Int.min_eq_left (by omega)

theorem pyIndices_coe (a b n : Nat) (st : Option Int) (hst : st.getD 1 = 1)
    (ha : a ≤ n) (hb : b ≤ n) :
    pyIndices ⟨some (a : Int), some (b : Int), st⟩ n = ((a : Int), (b : Int), 1) := by
  have hps : (⟨some (a : Int), some (b : Int), st⟩ : PySlice).step.getD 1 = 1 := hst
  rw [pyIndices, hps, if_pos Int.zero_lt_one]
  show (clampIndex (a : Int) 0 (n : Int) (n : Int),
        clampIndex (b : Int) 0 (n : Int) (n : Int), (1 : Int))
      = ((a : Int), (b : Int), 1)
  rw [clampIndex_coe a n ha, clampIndex_coe b n hb]

theorem rangeCount_one (x y : Int) : rangeCount x y 1 = (y - x).toNat := by
  rw [rangeCount, if_pos Int.zero_lt_one]
  by_cases h : x < y
  · rw [if_pos h, show y - x + 1 - 1 = y - x from by ring, Int.ediv_one]
  · rw [if_neg h]
    omega

theorem rangeList_one (a b : Nat) :
    rangeList (a : Int) (b : Int) 1
      = (List.range (b - a)).map (fun k : Nat => (a : Int) + 1 * (k : Int)) := by
  rw [rangeList, rangeCount_one,
      show ((b : Int) - (a : Int)).toNat = b - a from by omega]

theorem pySliceIdxs_coe (a b n : Nat) (st : Option Int) (hst : st.getD 1 = 1)
    (ha : a ≤ n) (hb : b ≤ n) :
    pySliceIdxs ⟨some (a : Int), some (b : Int), st⟩ n
      = (List.range (b - a)).map (fun k : Nat => (a : Int) + 1 * (k : Int)) := by
  rw [pySliceIdxs, pyIndices_coe a b n st hst ha hb]
  exact rangeList_one a b

theorem range_map_getD (fs : List LNode) (a cnt : Nat) (h : a + cnt ≤ fs.length) :
    (List.range cnt).map (fun k => fs.getD (a + k) (.leaf ""))
      = (fs.drop a).take cnt := by
  apply List.ext_getElem
  · simp only [List.length_map, List.length_range, List.length_take, List.length_drop]
    omega
  · intro i h1 h2
    simp only [List.length_map, List.length_range] at h1
    simp only [List.getElem_map, List.getElem_range, List.getElem_take, List.getElem_drop]
    rw [List.getD_eq_getElem?_getD, List.getElem?_eq_getElem (by omega)]
    rfl

theorem pyGetSlice_coe (fs : List LNode) (a b : Nat) (st : Option Int)
    (hst : st.getD 1 = 1) (hab : a ≤ b) (hb : b ≤ fs.length) :
    pyGetSlice fs ⟨some (a : Int), some (b : Int), st⟩ = (fs.drop a).take (b - a) := by
  rw [pyGetSlice, pySliceIdxs_coe a b fs.length st hst (hab.trans hb) hb, List.map_map]
  rw [show ((fun i : Int => fs.getD i.toNat (LNode.leaf ""))
        ∘ (fun k : Nat => (a : Int) + 1 * (k : Int)))
      = (fun k : Nat => fs.getD (a + k) (.leaf "")) from
    funext fun k => by
      simp only [Function.comp_apply]
      congr 1
      omega]
  exact range_map_getD fs a (b - a) (by omega)

/-- The descending index run `[a + d, ..., a + 1]` that the reversed
range of a step-1 slice walks before reaching its start. -/
def descIdxs (a : Nat) : Nat → List Int
  | 0 => []
  | d + 1 => ((a + d + 1 : Nat) : Int) :: descIdxs a d

theorem reverse_range_map (a : Nat) :
    ∀ d : Nat, ((List.range (d + 1)).map (fun k : Nat => (a : Int) + 1 * (k : Int))).reverse
      = descIdxs a d ++ [(a : Int)] := by
  intro d
  induction d with
  | zero => simp [descIdxs, List.range_succ]
  | succ d ih =>
      rw [List.range_succ, List.map_append, List.reverse_append, ih]
      simp only [List.map_cons, List.map_nil, List.reverse_cons, List.reverse_nil,
        List.nil_append, List.singleton_append, descIdxs, List.cons_append]
      congr 1
      push_cast
      ring

theorem reverse_range_map' (a d : Nat) (hd : 0 < d) :
    ((List.range d).map (fun k : Nat => (a : Int) + 1 * (k : Int))).reverse
      = descIdxs a (d - 1) ++ [(a : Int)] := by
  obtain ⟨d', rfl⟩ : ∃ d', d = d' + 1 := ⟨d - 1, by omega⟩
  simpa using reverse_range_map a d'

theorem delLoop_descIdxs (a : Nat) :
    ∀ (d : Nat) (l : List LNode), a + 1 + d ≤ l.length →
      delLoop (a : Int) (descIdxs a d ++ [(a : Int)]) l
        = (none, l.take (a + 1) ++ l.drop (a + 1 + d)) := by
  intro d
  induction d with
  | zero =>
      intro l h
      show delLoop (a : Int) [(a : Int)] l = _
      rw [delLoop, if_neg (by simp), delLoop]
      simp
  | succ d ih =>
      intro l h
      show delLoop (a : Int) (((a + d + 1 : Nat) : Int) :: (descIdxs a d ++ [(a : Int)])) l = _
      rw [delLoop, if_pos (show ((a + d + 1 : Nat) : Int) ≠ (a : Int) from by omega),
          pyDel_coe l (a + d + 1) (by omega)]
      show delLoop (a : Int) (descIdxs a d ++ [(a : Int)])
          (l.take (a + d + 1) ++ l.drop (a + d + 1 + 1)) = _
      rw [ih (l.take (a + d + 1) ++ l.drop (a + d + 1 + 1))
            (by simp only [List.length_append, List.length_take, List.length_drop]; omega)]
      have h1 : (l.take (a + d + 1) ++ l.drop (a + d + 1 + 1)).take (a + 1)
          = l.take (a + 1) := by
        rw [List.take_append_of_le_length (by simp only [List.length_take]; omega),
            List.take_take]
        congr 1
        omega
      have h2 : (l.take (a + d + 1) ++ l.drop (a + d + 1 + 1)).drop (a + 1 + d)
          = l.drop (a + 1 + (d + 1)) := by
        rw [List.drop_left' (by simp only [List.length_take]; omega)]
        congr 1
        omega
      rw [h1, h2]

theorem wrapTogether_slice_spec (rk K : Kind) (ra kwargs : Attrs)
    (fs : List LNode) (a b : Nat) (st : Option Int)
    (hst : st.getD 1 = 1) (hab : a < b) (hb : b ≤ fs.length) :
    wrap_together ⟨.node rk ra fs, .inl ⟨some (a : Int), some (b : Int), st⟩⟩ K [] kwargs
      = (none, .node rk ra
          (fs.take a ++ [LNode.node K kwargs ((fs.drop a).take (b - a))] ++ fs.drop b)) := by
  have ha : a < fs.length := lt_of_lt_of_le hab hb
  have hW : wrapped_object K (.list (pyGetSlice fs ⟨some (a : Int), some (b : Int), st⟩)) [] kwargs
      = LNode.node K kwargs ((fs.drop a).take (b - a)) := by
    rw [pyGetSlice_coe fs a b st hst (le_of_lt hab) hb]
    rfl
  show (match pySet fs ((a : Int))
        (wrapped_object K (.list (pyGetSlice fs ⟨some (a : Int), some (b : Int), st⟩)) [] kwargs) with
    | .error e => (some e, LNode.node rk ra fs)
    | .ok fs1 =>
        match delLoop ((a : Int))
            (pySliceIdxs ⟨some (a : Int), some (b : Int), st⟩ fs1.length).reverse fs1 with
        | (eOpt, fs2) => (eOpt, LNode.node rk ra fs2)) = _
  rw [hW, pySet_coe fs a _ ha]
  show (match delLoop ((a : Int))
        (pySliceIdxs ⟨some (a : Int), some (b : Int), st⟩
          (fs.set a (LNode.node K kwargs ((fs.drop a).take (b - a)))).length).reverse
        (fs.set a (LNode.node K kwargs ((fs.drop a).take (b - a)))) with
    | (eOpt, fs2) => (eOpt, LNode.node rk ra fs2)) = _
  rw [List.length_set,
      pySliceIdxs_coe a b fs.length st hst ((le_of_lt hab).trans hb) hb,
      reverse_range_map' a (b - a) (by omega),
      delLoop_descIdxs a (b - a - 1) _
        (by simp only [List.length_set]; omega)]
  have hset : fs.set a (LNode.node K kwargs ((fs.drop a).take (b - a)))
      = fs.take a ++ LNode.node K kwargs ((fs.drop a).take (b - a)) :: fs.drop (a + 1) :=
    List.set_eq_take_cons_drop _ ha
  have h1 : (fs.set a (LNode.node K kwargs ((fs.drop a).take (b - a)))).take (a + 1)
      = fs.take a ++ [LNode.node K kwargs ((fs.drop a).take (b - a))] := by
    rw [hset, show a + 1 = (fs.take a).length + 1 from by
        simp only [List.length_take]; omega,
      List.take_append]
    rfl
  have h2 : (fs.set a (LNode.node K kwargs ((fs.drop a).take (b - a)))).drop (a + 1 + (b - a - 1))
      = fs.drop b := by
    rw [hset, show a + 1 + (b - a - 1) = (fs.take a).length + (1 + (b - a - 1)) from by
        simp only [List.length_take]; omega,
      List.drop_append, show 1 + (b - a - 1) = (b - a - 1) + 1 from by omega,
      List.drop_succ_cons, List.drop_drop]
    congr 1
    omega
  show ((none : Option PyErr), LNode.node rk ra
      ((fs.set a (LNode.node K kwargs ((fs.drop a).take (b - a)))).take (a + 1)
        ++ (fs.set a (LNode.node K kwargs ((fs.drop a).take (b - a)))).drop (a + 1 + (b - a - 1)))) = _
  rw [h1, h2]

/-- Claim C2 (corrected): for every nonempty in-bounds step-1 range
`(a, b)` with `0 ≤ a < b ≤ N` over a root with `N` children,
`wrap_together(K)` leaves the children before `a` and from `b` on
untouched, places at position `a` one new `K` node whose fields are
exactly the covered sub-sequence in order, and reduces the child count
by `(b - a) - 1`, i.e. to `N - (b - a) + 1`. -/
theorem claim_C2 (rk K : Kind) (ra kwargs : Attrs) (fs : List LNode)
    (a b : Nat) (st : Option Int) (hst : st.getD 1 = 1) (hab : a < b)
    (hb : b ≤ fs.length) :
    wrap_together ⟨.node rk ra fs, .inl ⟨some (a : Int), some (b : Int), st⟩⟩ K [] kwargs
      = (none, .node rk ra
          (fs.take a ++ [LNode.node K kwargs ((fs.drop a).take (b - a))] ++ fs.drop b))
    ∧ ((wrap_together ⟨.node rk ra fs, .inl ⟨some (a : Int), some (b : Int), st⟩⟩
          K [] kwargs).2.fields.length
        = fs.length - (b - a) + 1) := by
  have h := wrapTogether_slice_spec rk K ra kwargs fs a b st hst hab hb
  refine ⟨h, ?_⟩
  rw [h]
  simp only [LNode.fields, List.length_append, List.length_take, List.length_drop,
    List.length_cons, List.length_nil]
  omega

/-- Counterexample to C2 as stated: the empty range `(0, 0)` over one
child does not reduce the child count by `len(R) - 1 = -1`; the slice
assignment replaces child 0 with an empty wrapper and nothing is
deleted, so the count stays 1 instead of the claimed 2. -/
theorem claim_C2_counterexample :
    wrap_together ⟨.node .layout [] [.leaf "a"], .inl ⟨some 0, some 0, some 1⟩⟩ .div [] []
      = (none, .node .layout [] [.node .div [] []])
    ∧ ((wrap_together ⟨.node .layout [] [.leaf "a"],
          .inl ⟨some 0, some 0, some 1⟩⟩ .div [] []).2.fields.length : Int)
      ≠ (1 : Int) - ((0 : Int) - 1) := by
  refine ⟨rfl, ?_⟩
  intro h
  have h2 : ((1 : Nat) : Int) = (1 : Int) - ((0 : Int) - 1) := h
  omega

/-- Witness for C2 at the spec's own example: children `[A, B, C, D]`,
range `(1, 3)`, giving `[A, K(B, C), D]`. -/
theorem claim_C2_witness :
    (1 : Nat) < 3 ∧ (3 : Nat) ≤ 4
    ∧ wrap_together ⟨.node .layout [] [.leaf "A", .leaf "B", .leaf "C", .leaf "D"],
          .inl ⟨some 1, some 3, none⟩⟩ .div [] []
        = (none, .node .layout []
            [.leaf "A", .node .div [] [.leaf "B", .leaf "C"], .leaf "D"]) :=
  ⟨by omega, by omega,
   by
    have h := (claim_C2 .layout .div [] []
      [.leaf "A", .leaf "B", .leaf "C", .leaf "D"] 1 3 none rfl
      (by omega) (by simp)).1
    simpa using h⟩

/-- Claim C9 (corrected): an integer key `k` is canonicalized at
construction to `slice(k, k + 1, 1)` (that part holds for every `k`,
by definition), and for `0 ≤ k < N` every operation treats the
selection as the one-element range `[k]`: `wrap_together` raises
nothing and wraps exactly child `k` into one new node at position `k`.
For negative keys the canonicalized slice is not the one-element range
Python indexing suggests — see the counterexample below. -/
theorem claim_C9 (rk K : Kind) (ra kwargs : Attrs) (fs : List LNode)
    (k : Nat) (hk : k < fs.length) :
    (LayoutSlice.make (.node rk ra fs) (.int (k : Int))).slice
        = Sum.inl ⟨some (k : Int), some ((k : Int) + 1), some 1⟩
    ∧ wrap_together (LayoutSlice.make (.node rk ra fs) (.int (k : Int))) K [] kwargs
        = (none, .node rk ra
            (fs.take k ++ [LNode.node K kwargs [fs.getD k (.leaf "")]] ++ fs.drop (k + 1))) := by
  refine ⟨rfl, ?_⟩
  have h := wrapTogether_slice_spec rk K ra kwargs fs k (k + 1) (some 1) rfl
    (by omega) (by omega)
  have hcast : ((k + 1 : Nat) : Int) = (k : Int) + 1 := by push_cast; ring
  rw [hcast] at h
  have hsub : (fs.drop k).take (k + 1 - k) = [fs.getD k (.leaf "")] := by
    rw [show k + 1 - k = 1 from by omega, List.drop_eq_getElem_cons hk,
        List.getD_eq_getElem?_getD, List.getElem?_eq_getElem hk]
    rfl
  rw [hsub] at h
  exact h

/-- Witness for C9: integer key 2 over `[A, B, C, D]` wraps exactly
child `C`. -/
theorem claim_C9_witness :
    (2 : Nat) < 4
    ∧ (LayoutSlice.make (.node .layout [] [.leaf "A", .leaf "B", .leaf "C", .leaf "D"])
        (.int 2)).slice = Sum.inl ⟨some 2, some 3, some 1⟩
    ∧ wrap_together
        (LayoutSlice.make (.node .layout [] [.leaf "A", .leaf "B", .leaf "C", .leaf "D"])
          (.int 2)) .div [] []
      = (none, .node .layout []
          [.leaf "A", .leaf "B", .node .div [] [.leaf "C"], .leaf "D"]) :=
  ⟨by omega,
   (claim_C9 .layout .div [] [] [.leaf "A", .leaf "B", .leaf "C", .leaf "D"] 2 (by simp)).1,
   by
    have h := (claim_C9 .layout .div [] []
      [.leaf "A", .leaf "B", .leaf "C", .leaf "D"] 2 (by simp)).2
    simpa using h⟩

/-- Counterexample to C9 as stated, at the negative key `-2` over
`[A, B, C, D]` (Python list indexing would address child `C`): the
slice `(-2, -1, 1)` normalizes to the single index 2 and the wrapper
is placed there, but the deletion loop compares the normalized index
with the raw start (`2 != -2`) and deletes the freshly placed wrapper,
so the result is `[A, B, D]` — the addressed child is destroyed, not
wrapped as one-element-range semantics would produce. -/
theorem claim_C9_counterexample :
    wrap_together
        (LayoutSlice.make (.node .layout [] [.leaf "A", .leaf "B", .leaf "C", .leaf "D"])
          (.int (-2))) .div [] []
      = (none, .node .layout [] [.leaf "A", .leaf "B", .leaf "D"])
    ∧ wrap_together
        (LayoutSlice.make (.node .layout [] [.leaf "A", .leaf "B", .leaf "C", .leaf "D"])
          (.int (-2))) .div [] []
      ≠ (none, .node .layout []
          [.leaf "A", .leaf "B", .node .div [] [.leaf "C"], .leaf "D"]) := by
  refine ⟨rfl, ?_⟩
  intro h
  have h2 : ((none : Option PyErr),
        LNode.node .layout [] [.leaf "A", .leaf "B", .leaf "D"])
      = (none, LNode.node .layout []
          [.leaf "A", .leaf "B", .node .div [] [.leaf "C"], .leaf "D"]) := h
  simp at h2

end CrispyForms
